import Mathlib

/-!
Shallow embedding of the `skipper` arbitrage bot core, for checking its
natural-language specification.

Embedded source files:
* `src/route.py` — the `Route` dataclass: `order_pools` (with its helpers
  `_order_first_pool`, `_order_second_pool`, `_order_last_pool`),
  `calculate_and_set_profit`, `calculate_and_set_optimal_amount_in`,
  `calculate_and_set_amount_in`.
* `src/querier/queriers/cosmwasm.py` — `query_node_for_new_mempool_txs`,
  the mempool polling loop with its dedup cache `already_seen`.

Modelling conventions:
* Python `int` is `ℤ`; the fractional fee rates (Python floats holding small
  decimal fractions) are `ℚ`; the floating-point arithmetic of the optimal
  sizer (`math.sqrt`, `/` on floats) is idealised as exact real arithmetic
  (`ℝ`, `Real.sqrt`), the idealisation the spec itself directs
  reimplementations toward.
* Python `set` of transaction hashes is `Finset ℕ`: identifiers are opaque
  tokens, modelled as naturals.
* In-place mutation of a `Route` becomes a function returning the new `Route`.
* The blocking poll loop consumes an explicit finite list of poll results
  (environment responses); exhausting the list without returning models
  "still polling" as `none`.
-/

/-- One AMM pool, as used by `src/route.py` (the `Pool` dataclass itself lives
in `src/contract.py`, outside the provided sources; only the fields `route.py`
reads are modelled). `amount_in` / `amount_out` are the transient simulation
fields. -/
structure Pool where
  token1_denom : String
  token2_denom : String
  input_reserves : ℤ
  output_reserves : ℤ
  lp_fee : ℚ
  protocol_fee : ℚ
  fee_from_input : Bool
  amount_in : ℤ := 0
  amount_out : ℤ := 0
deriving DecidableEq, Repr

/-- An observed pending swap (`src/swap.py`'s `Swap`, fields used by
`route.py`). -/
structure Swap where
  contract_address : String
  output_denom : String
deriving DecidableEq, Repr

/-- The `Route` dataclass of `src/route.py` (lines 12-17), with its default
field values. -/
structure Route where
  pools : List Pool := []
  profit : ℤ := 0
  optimal_amount_in : ℤ := 0
  amount_in : ℤ := 0
deriving DecidableEq, Repr

/-- Python's `list.index`: index of the first element equal to `target`.
Python raises `ValueError` when `target` is absent; here the list's length is
returned instead, so callers relying on presence state it as a hypothesis. -/
def firstIdx (target : Pool) : List Pool → ℕ
  | [] => 0
  | p :: ps => if p = target then 0 else firstIdx target ps + 1

/-- `Route._order_first_pool` (route.py lines 46-51). -/
def Route.order_first_pool (r : Route) (input_denom arb_denom : String) : Route :=
  if input_denom ≠ arb_denom then { r with pools := r.pools.reverse } else r

/-- `Route._order_second_pool` (route.py lines 53-66). The Python code reads
`self.pools[0]`; an empty pool list would raise `IndexError` there and is
modelled as a no-op (unreachable from `order_pools`, which only dispatches
here when the swapped pool sits at index 1). The `contracts` argument of the
Python method is unused by its body and dropped. -/
def Route.order_second_pool (r : Route) (input_denom arb_denom : String) : Route :=
  match r.pools with
  | [] => r
  | first_pool :: _ =>
    let output_denom :=
      if first_pool.token1_denom ≠ arb_denom then first_pool.token1_denom
      else first_pool.token2_denom
    if input_denom ≠ output_denom then { r with pools := r.pools.reverse } else r

/-- `Route._order_last_pool` (route.py lines 68-73). -/
def Route.order_last_pool (r : Route) (input_denom arb_denom : String) : Route :=
  if input_denom = arb_denom then { r with pools := r.pools.reverse } else r

/-- `Route.order_pools` (route.py lines 19-44). `contracts` is the
`pool_id ↦ Pool` mapping (a Python dict, modelled as a total function; a
missing key would raise `KeyError`). The Python `match` has cases `0`, `1`,
`2` and no wildcard, so any other index falls through unchanged. -/
def Route.order_pools (r : Route) (contracts : String → Pool) (swap : Swap)
    (arb_denom : String) : Route :=
  let swapped_index := firstIdx (contracts swap.contract_address) r.pools
  let input_denom := swap.output_denom
  match swapped_index with
  | 0 => r.order_first_pool input_denom arb_denom
  | 1 => r.order_second_pool input_denom arb_denom
  | 2 => r.order_last_pool input_denom arb_denom
  | _ + 3 => r

/-- The denom chain of an ordered pool sequence: `chainsB ps d e` holds when
one can enter the first pool holding denom `d`, each pool converts the held
denom to the other member of its (unordered) token pair, and after the last
pool the held denom is `e`. `chainsB ps arb arb` is the spec's denom-cycle
invariant for an oriented route: pool 0's input denom is `arb`, consecutive
pools chain, and the last pool's output denom is `arb` again. -/
def chainsB : List Pool → String → String → Bool
  | [], d, e => d == e
  | p :: ps, d, e =>
    (if d = p.token1_denom then chainsB ps p.token2_denom e else false) ||
    (if d = p.token2_denom then chainsB ps p.token1_denom e else false)

/-- Modelled from the spec: `calculate_swap` lives in `src/swap.py`, which is
not among the provided sources; `route.py` only imports it. Per the spec, a
pool computes `amount_out` "via the standard constant-product AMM formula
parameterized by `input_reserves`, `output_reserves`, and fee rate
`(lp_fee + protocol_fee)`, applied either to the input (before the
constant-product division) or to the output (after), per `fee_from_input`",
where the constant-product formula is
`output = reserve_out * input / (reserve_in + input)`; amounts are integers
(profit "to the integer floor"). -/
def calculate_swap (reserves_in reserves_out amount_in : ℤ)
    (lp_fee protocol_fee : ℚ) (fee_from_input : Bool) : ℤ :=
  let fee := lp_fee + protocol_fee
  if fee_from_input then
    let a_in : ℚ := (amount_in : ℚ) * (1 - fee)
    ⌊(reserves_out : ℚ) * a_in / ((reserves_in : ℚ) + a_in)⌋
  else
    ⌊(reserves_out : ℚ) * (amount_in : ℚ) / ((reserves_in : ℚ) + (amount_in : ℚ))
      * (1 - fee)⌋

/-- The body of the loop in `Route.calculate_and_set_profit` (route.py lines
79-92): pool 0 receives `amount_in`, each later pool receives the previous
pool's `amount_out`, and each pool's `amount_out` is `calculate_swap` of its
reserves, fees, and its `amount_in`. Returns the pool list with the transient
fields updated. -/
def runPools (amount_in : ℤ) : List Pool → List Pool
  | [] => []
  | p :: ps =>
    let p' := { p with
      amount_in := amount_in,
      amount_out := calculate_swap p.input_reserves p.output_reserves amount_in
        p.lp_fee p.protocol_fee p.fee_from_input }
    p' :: runPools p'.amount_out ps

/-- `Route.calculate_and_set_profit` (route.py lines 75-95): runs the pools,
then sets `profit = pools[-1].amount_out - pools[0].amount_in` and returns it.
On an empty pool list Python's `self.pools[-1]` raises `IndexError`, modelled
as `none`. -/
def Route.calculate_and_set_profit (r : Route) : Option (Route × ℤ) :=
  let pools' := runPools r.amount_in r.pools
  match pools'.getLast?, pools'.head? with
  | some lastP, some firstP =>
    let profit := lastP.amount_out - firstP.amount_in
    some ({ r with pools := pools', profit := profit }, profit)
  | _, _ => none

/-- The element appended to the local list `input_fees` for one pool in
`calculate_and_set_optimal_amount_in` (route.py lines 109-114). -/
def inputFee (p : Pool) : ℚ :=
  if p.fee_from_input then 1 - (p.lp_fee + p.protocol_fee) else 1

/-- The element appended to the local list `output_fees` for one pool in
`calculate_and_set_optimal_amount_in` (route.py lines 109-114). -/
def outputFee (p : Pool) : ℚ :=
  if p.fee_from_input then 1 else 1 - (p.lp_fee + p.protocol_fee)

/-- One step of the fold in `calculate_and_set_optimal_amount_in` (route.py
lines 119-124), updating `(a_prime_in, a_prime_out)` with the next pool's
reserves and fees. (The Python assignments are sequential, but the second
right-hand side reads only the old `a_prime_out`, so the simultaneous update
is exact.) Python float arithmetic is idealised as exact reals. -/
noncomputable def aPrimeStep (a : ℝ × ℝ) (p : Pool) : ℝ × ℝ :=
  let d : ℝ := (p.input_reserves : ℝ) + (inputFee p * outputFee p : ℚ) * a.2
  (a.1 * (p.input_reserves : ℝ) / d,
   (inputFee p * outputFee p : ℚ) * (p.output_reserves : ℝ) * a.2 / d)

/-- The value `calculate_and_set_optimal_amount_in` (route.py lines 97-128)
assigns to `optimal_amount_in`: fold `aPrimeStep` over the pools after the
first, starting from pool 0's reserves, then
`math.floor((math.sqrt(input_fees[0]*output_fees[0]*a_prime_out*a_prime_in)
- a_prime_in) / input_fees[0])`. On an empty pool list `input_fees[0]` raises
`IndexError`, modelled as `none`. -/
noncomputable def optimalAmountIn : List Pool → Option ℤ
  | [] => none
  | p0 :: rest =>
    let a := rest.foldl aPrimeStep ((p0.input_reserves : ℝ), (p0.output_reserves : ℝ))
    some ⌊(Real.sqrt ((inputFee p0 : ℝ) * (outputFee p0 : ℝ) * a.2 * a.1) - a.1)
            / (inputFee p0 : ℝ)⌋

/-- `Route.calculate_and_set_optimal_amount_in` as a `Route` transformer
(the unreachable empty-pool `IndexError` case leaves the route unchanged). -/
noncomputable def Route.calculate_and_set_optimal_amount_in (r : Route) : Route :=
  match optimalAmountIn r.pools with
  | none => r
  | some v => { r with optimal_amount_in := v }

/-- `Route.calculate_and_set_amount_in` (route.py lines 130-139). -/
def Route.calculate_and_set_amount_in (r : Route) (account_balance gas_fee : ℤ) :
    Route :=
  if r.optimal_amount_in ≤ 0 then r
  else if account_balance - gas_fee < r.optimal_amount_in then
    { r with amount_in := account_balance - gas_fee }
  else
    { r with amount_in := r.optimal_amount_in }

/-- The spec-side fee multipliers `(f_i, g_i)`:
`(1 − (lp_fee+protocol_fee), 1)` when fees are charged on input,
`(1, 1 − (lp_fee+protocol_fee))` when charged on output. -/
def feeMultipliers (p : Pool) : ℚ × ℚ :=
  if p.fee_from_input then (1 - (p.lp_fee + p.protocol_fee), 1)
  else (1, 1 - (p.lp_fee + p.protocol_fee))

/-- The spec-side closed-form optimum, written from the spec's own words:
starting from pool 0's reserves as `(A_in, A_out)`, fold each subsequent pool
`i` via `A_in' = (A_in * r_in) / (r_in + f_i * g_i * A_out)` and
`A_out' = (f_i * g_i * r_out * A_out) / (r_in + f_i * g_i * A_out)`, then
`optimal_in = floor((sqrt(f_0 * g_0 * A_out' * A_in') − A_in') / f_0)`. -/
noncomputable def specOptimalAmountIn (p0 : Pool) (rest : List Pool) : ℤ :=
  let fg0 := feeMultipliers p0
  let a := rest.foldl
    (fun a p =>
      let fg := feeMultipliers p
      let d : ℝ := (p.input_reserves : ℝ) + (fg.1 * fg.2 : ℚ) * a.2
      ((a.1 * (p.input_reserves : ℝ)) / d,
       ((fg.1 * fg.2 : ℚ) * (p.output_reserves : ℝ) * a.2) / d))
    ((p0.input_reserves : ℝ), (p0.output_reserves : ℝ))
  ⌊(Real.sqrt ((fg0.1 * fg0.2 : ℚ) * a.2 * a.1) - a.1) / (fg0.1 : ℝ)⌋

/-- The inner `for tx in mempool['txs']` loop of
`query_node_for_new_mempool_txs` (cosmwasm.py lines 59-64): each transaction
not in `already_seen` is added to the cache and appended to `new_txs`; ones
already seen are skipped. Returns the final cache and the `new_txs` batch. -/
def processNewTxs (seen : Finset ℕ) : List ℕ → Finset ℕ × List ℕ
  | [] => (seen, [])
  | tx :: rest =>
    if tx ∈ seen then processNewTxs seen rest
    else
      let r := processNewTxs (insert tx seen) rest
      (r.1, tx :: r.2)

/-- `CosmWasmQuerier.query_node_for_new_mempool_txs` (cosmwasm.py lines
37-67). Each element of `responses` is one poll attempt's outcome:
`none` for a failed/undecodable query or a mempool without (or with empty)
`txs` — the `continue` branches — and `some txs` for a delivered transaction
list. At each iteration the cache is cleared when its size exceeds 200, the
txs are deduplicated against it, and the batch is returned when non-empty;
exhausting `responses` models a loop still polling. -/
def query_node_for_new_mempool_txs (seen : Finset ℕ) :
    List (Option (List ℕ)) → Option (Finset ℕ × List ℕ)
  | [] => none
  | resp :: rest =>
    let seen1 := if 200 < seen.card then (∅ : Finset ℕ) else seen
    match resp with
    | none => query_node_for_new_mempool_txs seen1 rest
    | some txs =>
      if txs.isEmpty then query_node_for_new_mempool_txs seen1 rest
      else
        let r := processNewTxs seen1 txs
        if r.2.isEmpty then query_node_for_new_mempool_txs r.1 rest
        else some r

/-- Concrete example pools forming the cycle uarb → ujuno → uatom → uarb. -/
def poolAB : Pool :=
  { token1_denom := "uarb", token2_denom := "ujuno",
    input_reserves := 1000, output_reserves := 2000,
    lp_fee := 0, protocol_fee := 0, fee_from_input := true }

def poolBC : Pool :=
  { token1_denom := "ujuno", token2_denom := "uatom",
    input_reserves := 3000, output_reserves := 1500,
    lp_fee := 0, protocol_fee := 0, fee_from_input := true }

def poolCA : Pool :=
  { token1_denom := "uatom", token2_denom := "uarb",
    input_reserves := 800, output_reserves := 900,
    lp_fee := 0, protocol_fee := 0, fee_from_input := true }

/-- A concrete three-pool route over the example pools. -/
def exRoute : Route := { pools := [poolAB, poolBC, poolCA] }

/-- A concrete contract-address map for the example pools. -/
def exContracts : String → Pool := fun a =>
  if a = "c2" then poolBC else if a = "c3" then poolCA else poolAB

lemma order_first_pool_cases (r : Route) (input_denom arb_denom : String) :
    (r.order_first_pool input_denom arb_denom).pools = r.pools ∨
    (r.order_first_pool input_denom arb_denom).pools = r.pools.reverse := by
  unfold Route.order_first_pool
  split <;> simp

lemma order_second_pool_cases (r : Route) (input_denom arb_denom : String) :
    (r.order_second_pool input_denom arb_denom).pools = r.pools ∨
    (r.order_second_pool input_denom arb_denom).pools = r.pools.reverse := by
  unfold Route.order_second_pool
  split
  · left; rfl
  · split <;> dsimp only <;> split <;> simp

lemma order_last_pool_cases (r : Route) (input_denom arb_denom : String) :
    (r.order_last_pool input_denom arb_denom).pools = r.pools ∨
    (r.order_last_pool input_denom arb_denom).pools = r.pools.reverse := by
  unfold Route.order_last_pool
  split <;> simp

/-- `order_pools` only ever keeps the pool list or reverses it: every branch
of the three helpers is the identity or an in-place `reverse`. -/
lemma order_pools_pools_cases (r : Route) (contracts : String → Pool)
    (swap : Swap) (arb_denom : String) :
    (r.order_pools contracts swap arb_denom).pools = r.pools ∨
    (r.order_pools contracts swap arb_denom).pools = r.pools.reverse := by
  unfold Route.order_pools
  dsimp only
  split
  · exact order_first_pool_cases r swap.output_denom arb_denom
  · exact order_second_pool_cases r swap.output_denom arb_denom
  · exact order_last_pool_cases r swap.output_denom arb_denom
  · left; rfl

/-- When the swapped pool's index is 3 or more, no `match` case of
`order_pools` fires and the route is returned unchanged. -/
lemma order_pools_high_index (r : Route) (contracts : String → Pool)
    (swap : Swap) (arb_denom : String)
    (h3 : 3 ≤ firstIdx (contracts swap.contract_address) r.pools) :
    r.order_pools contracts swap arb_denom = r := by
  unfold Route.order_pools
  dsimp only
  split
  · omega
  · omega
  · omega
  · rfl

/-- Claim C5: the balance-constrained sizer. When `optimal_amount_in ≤ 0` the
route's `amount_in` is left unchanged (hence at its default 0 for a fresh
route); when `optimal_amount_in > account_balance - gas_fee` it is clamped to
`account_balance - gas_fee` (even when that difference is negative); otherwise
it is `optimal_amount_in`. The spec's three worked examples are included. -/
theorem calculate_and_set_amount_in_spec :
    (∀ (r : Route) (account_balance gas_fee : ℤ),
      (r.calculate_and_set_amount_in account_balance gas_fee).amount_in =
        if r.optimal_amount_in ≤ 0 then r.amount_in
        else if account_balance - gas_fee < r.optimal_amount_in then
          account_balance - gas_fee
        else r.optimal_amount_in) ∧
    (({ optimal_amount_in := 1000 } : Route).calculate_and_set_amount_in
        500 100).amount_in = 400 ∧
    (({ optimal_amount_in := -5 } : Route).calculate_and_set_amount_in
        500 100).amount_in = 0 ∧
    (({ optimal_amount_in := 50 } : Route).calculate_and_set_amount_in
        1000 10).amount_in = 50 := by
  refine ⟨fun r b g => ?_, by decide, by decide, by decide⟩
  unfold Route.calculate_and_set_amount_in
  split_ifs <;> rfl

/-- Claim C8: after the balance-constrained sizer runs with `gas_fee ≥ 0` on a
route with positive `optimal_amount_in` and default `amount_in = 0`, the
chosen `amount_in` is at most `optimal_amount_in` and at most the account
balance. -/
theorem calculate_and_set_amount_in_bounds (r : Route)
    (account_balance gas_fee : ℤ) (hg : 0 ≤ gas_fee)
    (hopt : 0 < r.optimal_amount_in) (h0 : r.amount_in = 0) :
    (r.calculate_and_set_amount_in account_balance gas_fee).amount_in ≤
      r.optimal_amount_in ∧
    (r.calculate_and_set_amount_in account_balance gas_fee).amount_in ≤
      account_balance := by
  unfold Route.calculate_and_set_amount_in
  split_ifs with h1 h2
  · exact ⟨by omega, by omega⟩
  · constructor <;> simp <;> omega
  · constructor <;> simp <;> omega

theorem calculate_and_set_amount_in_bounds_witness :
    (0 : ℤ) ≤ 10 ∧ 0 < ({ optimal_amount_in := 50 } : Route).optimal_amount_in ∧
    ({ optimal_amount_in := 50 } : Route).amount_in = 0 ∧
    ((({ optimal_amount_in := 50 } : Route).calculate_and_set_amount_in
        1000 10).amount_in ≤ ({ optimal_amount_in := 50 } : Route).optimal_amount_in ∧
      (({ optimal_amount_in := 50 } : Route).calculate_and_set_amount_in
        1000 10).amount_in ≤ 1000) :=
  ⟨by decide, by decide, rfl,
    calculate_and_set_amount_in_bounds _ 1000 10 (by decide) (by decide) rfl⟩

/-- Claim C9: ordering twice with swaps that each trigger a reversal restores
the original pool sequence (double reversal is the identity). -/
theorem order_pools_double_reversal (r : Route)
    (c1 c2 : String → Pool) (s1 s2 : Swap) (a1 a2 : String)
    (h1 : (r.order_pools c1 s1 a1).pools = r.pools.reverse)
    (h2 : ((r.order_pools c1 s1 a1).order_pools c2 s2 a2).pools =
      (r.order_pools c1 s1 a1).pools.reverse) :
    ((r.order_pools c1 s1 a1).order_pools c2 s2 a2).pools = r.pools := by
  rw [h2, h1, List.reverse_reverse]

theorem order_pools_double_reversal_witness :
    (exRoute.order_pools exContracts ⟨"c1", "ujuno"⟩ "uarb").pools =
      exRoute.pools.reverse ∧
    ((exRoute.order_pools exContracts ⟨"c1", "ujuno"⟩ "uarb").order_pools
        exContracts ⟨"c1", "uarb"⟩ "uarb").pools =
      (exRoute.order_pools exContracts ⟨"c1", "ujuno"⟩ "uarb").pools.reverse ∧
    ((exRoute.order_pools exContracts ⟨"c1", "ujuno"⟩ "uarb").order_pools
        exContracts ⟨"c1", "uarb"⟩ "uarb").pools = exRoute.pools :=
  ⟨by decide, by decide,
    order_pools_double_reversal exRoute exContracts exContracts
      ⟨"c1", "ujuno"⟩ ⟨"c1", "uarb"⟩ "uarb" "uarb" (by decide) (by decide)⟩

/-- Claim C10: for a swap whose target pool is in the route, `order_pools`
either leaves the pool sequence unchanged or replaces it by its exact
reversal (so membership is preserved), and when the target's index is 3 or
more the sequence is always unchanged (no `match` case handles it). -/
theorem order_pools_reverse_or_id (r : Route) (contracts : String → Pool)
    (swap : Swap) (arb_denom : String)
    (hmem : contracts swap.contract_address ∈ r.pools) :
    ((r.order_pools contracts swap arb_denom).pools = r.pools ∨
      (r.order_pools contracts swap arb_denom).pools = r.pools.reverse) ∧
    (∀ p, p ∈ (r.order_pools contracts swap arb_denom).pools ↔ p ∈ r.pools) ∧
    (3 ≤ firstIdx (contracts swap.contract_address) r.pools →
      (r.order_pools contracts swap arb_denom).pools = r.pools) := by
  refine ⟨order_pools_pools_cases r contracts swap arb_denom, fun p => ?_, fun h3 => ?_⟩
  · rcases order_pools_pools_cases r contracts swap arb_denom with h | h <;>
      rw [h] <;> simp
  · rw [order_pools_high_index r contracts swap arb_denom h3]

/-- Claim C4: on a three-pool route, `order_pools` reverses the pool sequence
exactly under the spec's per-position conditions — at index 0 iff
`swap.output_denom ≠ arb_denom`; at index 1 iff `swap.output_denom` differs
from the first pool's outward denom (`token2` if `token1 = arb_denom`, else
`token1`); at the last index (2) iff `swap.output_denom = arb_denom`. -/
theorem order_pools_reversal_conditions (r : Route) (contracts : String → Pool)
    (swap : Swap) (arb_denom : String) (p0 p1 p2 : Pool)
    (hp : r.pools = [p0, p1, p2]) :
    (firstIdx (contracts swap.contract_address) r.pools = 0 →
      (r.order_pools contracts swap arb_denom).pools =
        if swap.output_denom ≠ arb_denom then r.pools.reverse else r.pools) ∧
    (firstIdx (contracts swap.contract_address) r.pools = 1 →
      (r.order_pools contracts swap arb_denom).pools =
        if swap.output_denom ≠
            (if p0.token1_denom = arb_denom then p0.token2_denom
             else p0.token1_denom)
          then r.pools.reverse else r.pools) ∧
    (firstIdx (contracts swap.contract_address) r.pools = 2 →
      (r.order_pools contracts swap arb_denom).pools =
        if swap.output_denom = arb_denom then r.pools.reverse
        else r.pools) := by
  refine ⟨fun h => ?_, fun h => ?_, fun h => ?_⟩ <;>
    unfold Route.order_pools <;> dsimp only <;> rw [h]
  · unfold Route.order_first_pool
    split_ifs <;> rfl
  · unfold Route.order_second_pool
    rw [hp]
    dsimp only
    have key : (if p0.token1_denom ≠ arb_denom then p0.token1_denom
          else p0.token2_denom) =
        (if p0.token1_denom = arb_denom then p0.token2_denom
          else p0.token1_denom) := by
      by_cases ha : p0.token1_denom = arb_denom <;> simp [ha]
    rw [key]
    split_ifs <;> simp [hp]
  · unfold Route.order_last_pool
    split_ifs <;> rfl

theorem order_pools_reversal_conditions_witness :
    exRoute.pools = [poolAB, poolBC, poolCA] ∧
    (exRoute.order_pools exContracts ⟨"c2", "uatom"⟩ "uarb").pools =
      exRoute.pools.reverse :=
  ⟨rfl, by
    rw [(order_pools_reversal_conditions exRoute exContracts ⟨"c2", "uatom"⟩
      "uarb" poolAB poolBC poolCA rfl).2.1 (by decide)]
    decide⟩

lemma chainsB_nil (d e : String) : chainsB [] d e = true ↔ d = e := by
  simp [chainsB]

lemma chainsB_cons (p : Pool) (ps : List Pool) (d e : String) :
    chainsB (p :: ps) d e = true ↔
    (d = p.token1_denom ∧ chainsB ps p.token2_denom e = true) ∨
    (d = p.token2_denom ∧ chainsB ps p.token1_denom e = true) := by
  simp only [chainsB, Bool.or_eq_true]
  split_ifs with h1 h2 <;> simp_all

lemma chainsB_append (xs ys : List Pool) (d e : String) :
    chainsB (xs ++ ys) d e = true ↔
    ∃ m, chainsB xs d m = true ∧ chainsB ys m e = true := by
  induction xs generalizing d with
  | nil => simp [chainsB_nil]
  | cons p xs ih =>
    simp only [List.cons_append, chainsB_cons, ih]
    constructor
    · rintro (⟨h1, m, hm1, hm2⟩ | ⟨h1, m, hm1, hm2⟩)
      · exact ⟨m, Or.inl ⟨h1, hm1⟩, hm2⟩
      · exact ⟨m, Or.inr ⟨h1, hm1⟩, hm2⟩
    · rintro ⟨m, ⟨h1, hm1⟩ | ⟨h1, hm1⟩, hm2⟩
      · exact Or.inl ⟨h1, m, hm1, hm2⟩
      · exact Or.inr ⟨h1, m, hm1, hm2⟩

/-- Reversing a pool sequence reverses the direction of its denom chain. -/
lemma chainsB_reverse (ps : List Pool) (d e : String) :
    chainsB ps.reverse d e = true ↔ chainsB ps e d = true := by
  induction ps generalizing d e with
  | nil => rw [List.reverse_nil, chainsB_nil, chainsB_nil]; exact eq_comm
  | cons p ps ih =>
    rw [List.reverse_cons, chainsB_append]
    simp only [chainsB_cons, chainsB_nil, ih]
    constructor
    · rintro ⟨m, hm, ⟨h1, h2⟩ | ⟨h1, h2⟩⟩
      · exact Or.inr ⟨h2.symm, by rw [← h1]; exact hm⟩
      · exact Or.inl ⟨h2.symm, by rw [← h1]; exact hm⟩
    · rintro (⟨h1, h2⟩ | ⟨h1, h2⟩)
      · exact ⟨p.token2_denom, h2, Or.inr ⟨rfl, h1.symm⟩⟩
      · exact ⟨p.token1_denom, h2, Or.inl ⟨rfl, h1.symm⟩⟩

/-- Claim C1: on a three-pool route whose pool sequence forms a valid denom
cycle through `arb_denom`, for any swap targeting one of the route's pools,
the route produced by `order_pools` still forms a valid denom cycle through
`arb_denom`: pool 0's input denom is `arb_denom`, the denoms chain through
the pools, and the last pool's output denom is `arb_denom` again. -/
theorem order_pools_preserves_cycle (r : Route) (contracts : String → Pool)
    (swap : Swap) (arb_denom : String)
    (hlen : r.pools.length = 3)
    (hcyc : chainsB r.pools arb_denom arb_denom = true)
    (hmem : contracts swap.contract_address ∈ r.pools) :
    chainsB (r.order_pools contracts swap arb_denom).pools arb_denom arb_denom
      = true ∧
    (r.order_pools contracts swap arb_denom).pools.length = 3 := by
  rcases order_pools_pools_cases r contracts swap arb_denom with h | h <;> rw [h]
  · exact ⟨hcyc, hlen⟩
  · exact ⟨(chainsB_reverse r.pools arb_denom arb_denom).mpr hcyc, by simp [hlen]⟩

theorem order_pools_preserves_cycle_witness :
    exRoute.pools.length = 3 ∧
    chainsB exRoute.pools "uarb" "uarb" = true ∧
    exContracts (Swap.mk "c2" "uatom").contract_address ∈ exRoute.pools ∧
    chainsB (exRoute.order_pools exContracts ⟨"c2", "uatom"⟩ "uarb").pools
      "uarb" "uarb" = true :=
  ⟨rfl, by decide, by decide,
    (order_pools_preserves_cycle exRoute exContracts ⟨"c2", "uatom"⟩ "uarb"
      rfl (by decide) (by decide)).1⟩

theorem order_pools_reverse_or_id_witness :
    exContracts (Swap.mk "c2" "uatom").contract_address ∈ exRoute.pools ∧
    ((exRoute.order_pools exContracts ⟨"c2", "uatom"⟩ "uarb").pools =
        exRoute.pools ∨
      (exRoute.order_pools exContracts ⟨"c2", "uatom"⟩ "uarb").pools =
        exRoute.pools.reverse) :=
  ⟨by decide,
    (order_pools_reverse_or_id exRoute exContracts ⟨"c2", "uatom"⟩ "uarb"
      (by decide)).1⟩

/-- The simulation relation of one pass of `calculate_and_set_profit`'s loop:
`simulatedPools a ps qs` holds when `qs` is `ps` with pool 0's `amount_in`
set to `a`, every later pool's `amount_in` set to the previous pool's
`amount_out`, and every pool's `amount_out` set to `calculate_swap` of its
own reserves, fees, and `amount_in` (all other fields untouched). -/
def simulatedPools : ℤ → List Pool → List Pool → Prop
  | _, [], [] => True
  | a, p :: ps, q :: qs =>
    q = { p with
      amount_in := a,
      amount_out := calculate_swap p.input_reserves p.output_reserves a
        p.lp_fee p.protocol_fee p.fee_from_input } ∧
    simulatedPools q.amount_out ps qs
  | _, _, _ => False

lemma runPools_simulated (a : ℤ) (ps : List Pool) :
    simulatedPools a ps (runPools a ps) := by
  induction ps generalizing a with
  | nil => trivial
  | cons p ps ih => exact ⟨rfl, ih _⟩

/-- Claim C3: `calculate_and_set_profit` on a route with a non-empty pool
list feeds `route.amount_in` into pool 0, chains each later pool's
`amount_in` from the previous pool's `amount_out` (each `amount_out` being
the constant-product swap of that pool's reserves and fees), stores
`profit = last pool's amount_out − first pool's amount_in`, and returns that
profit. -/
theorem calculate_and_set_profit_spec (r : Route) (p : Pool) (ps : List Pool)
    (hp : r.pools = p :: ps) :
    ∃ r' profit firstP lastP,
      r.calculate_and_set_profit = some (r', profit) ∧
      simulatedPools r.amount_in r.pools r'.pools ∧
      r'.pools.head? = some firstP ∧
      r'.pools.getLast? = some lastP ∧
      firstP.amount_in = r.amount_in ∧
      profit = lastP.amount_out - firstP.amount_in ∧
      r'.profit = profit := by
  rcases r with ⟨pools, profit0, opt0, ain⟩
  simp only at hp
  subst hp
  have hne : runPools ain (p :: ps) ≠ [] := by simp [runPools]
  obtain ⟨lastP, hlast⟩ :=
    Option.isSome_iff_exists.mp (List.getLast?_isSome.mpr hne)
  have hfirst : (runPools ain (p :: ps)).head? =
      some { p with
        amount_in := ain,
        amount_out := calculate_swap p.input_reserves p.output_reserves ain
          p.lp_fee p.protocol_fee p.fee_from_input } := by
    simp [runPools]
  have hmain : Route.calculate_and_set_profit ⟨p :: ps, profit0, opt0, ain⟩ =
      some ({ pools := runPools ain (p :: ps),
              profit := lastP.amount_out - ain,
              optimal_amount_in := opt0, amount_in := ain },
            lastP.amount_out - ain) := by
    unfold Route.calculate_and_set_profit
    dsimp only
    rw [hlast, hfirst]
  exact ⟨_, _, _, lastP, hmain, runPools_simulated ain (p :: ps), hfirst, hlast,
    rfl, rfl, rfl⟩

theorem calculate_and_set_profit_spec_witness :
    ({ pools := [poolAB], amount_in := 10 } : Route).pools = [poolAB] ∧
    (∃ r' profit firstP lastP,
      ({ pools := [poolAB], amount_in := 10 } : Route).calculate_and_set_profit
        = some (r', profit) ∧
      simulatedPools ({ pools := [poolAB], amount_in := 10 } : Route).amount_in
        ({ pools := [poolAB], amount_in := 10 } : Route).pools r'.pools ∧
      r'.pools.head? = some firstP ∧
      r'.pools.getLast? = some lastP ∧
      firstP.amount_in = ({ pools := [poolAB], amount_in := 10 } : Route).amount_in ∧
      profit = lastP.amount_out - firstP.amount_in ∧
      r'.profit = profit) :=
  ⟨rfl, calculate_and_set_profit_spec _ poolAB [] rfl⟩

lemma feeMultipliers_fst (p : Pool) : (feeMultipliers p).1 = inputFee p := by
  cases hf : p.fee_from_input <;> simp [feeMultipliers, inputFee, hf]

lemma feeMultipliers_snd (p : Pool) : (feeMultipliers p).2 = outputFee p := by
  cases hf : p.fee_from_input <;> simp [feeMultipliers, outputFee, hf]

/-- Claim C2: on a route with at least one pool,
`calculate_and_set_optimal_amount_in` sets `optimal_amount_in` to exactly the
spec's closed-form cyclic-arbitrage optimum `specOptimalAmountIn`: the
`(A_in, A_out)` fold over the pools after the first with multipliers
`(f_i, g_i)`, finished by
`floor((sqrt(f_0 * g_0 * A_out' * A_in') − A_in') / f_0)`. -/
theorem calculate_and_set_optimal_amount_in_spec (r : Route) (p0 : Pool)
    (rest : List Pool) (hp : r.pools = p0 :: rest) :
    (r.calculate_and_set_optimal_amount_in).optimal_amount_in =
      specOptimalAmountIn p0 rest := by
  have hstep : (fun (a : ℝ × ℝ) (p : Pool) =>
      let fg := feeMultipliers p
      let d : ℝ := (p.input_reserves : ℝ) + (fg.1 * fg.2 : ℚ) * a.2
      ((a.1 * (p.input_reserves : ℝ)) / d,
       ((fg.1 * fg.2 : ℚ) * (p.output_reserves : ℝ) * a.2) / d)) = aPrimeStep := by
    funext a p
    simp only [aPrimeStep, feeMultipliers_fst, feeMultipliers_snd]
  unfold Route.calculate_and_set_optimal_amount_in optimalAmountIn
    specOptimalAmountIn
  rw [hp]
  dsimp only
  rw [hstep, feeMultipliers_fst, feeMultipliers_snd]
  norm_cast

/-- A single fee-free pool used to instantiate the optimal-sizer theorem. -/
def pW : Pool :=
  { token1_denom := "uarb", token2_denom := "ujuno",
    input_reserves := 4, output_reserves := 9,
    lp_fee := 0, protocol_fee := 0, fee_from_input := true }

theorem calculate_and_set_optimal_amount_in_spec_witness :
    ({ pools := [pW] } : Route).pools = [pW] ∧
    (({ pools := [pW] } : Route).calculate_and_set_optimal_amount_in).optimal_amount_in
      = specOptimalAmountIn pW [] :=
  ⟨rfl, calculate_and_set_optimal_amount_in_spec _ pW [] rfl⟩

/-- Claim C6 counterexample: with the dedup cache holding exactly 200 distinct
identifiers, inserting a 201st distinct identifier does NOT clear the cache —
the clear condition `len(already_seen) > 200` is checked before the insertion
of the current batch, when the size is still 200 — so afterward the cache
holds 201 identifiers, not 1. -/
theorem mempool_cache_201_counterexample :
    query_node_for_new_mempool_txs (Finset.range 200) [some [200]] =
      some (insert 200 (Finset.range 200), [200]) ∧
    (insert 200 (Finset.range 200)).card = 201 ∧
    (insert 200 (Finset.range 200)).card ≠ 1 := by
  have hcard : (insert 200 (Finset.range 200)).card = 201 := by
    rw [Finset.card_insert_of_not_mem (by simp), Finset.card_range]
  refine ⟨?_, hcard, by rw [hcard]; omega⟩
  unfold query_node_for_new_mempool_txs
  simp [processNewTxs, Finset.card_range, Finset.mem_range]

/-- Claim C6 amended: the cache is cleared at the start of a poll iteration
whenever its size already exceeds 200; in particular inserting a new
identifier when the cache holds more than 200 entries (e.g. 201) yields a
cache of size 1 containing only the newest identifier. (Inserting the 201st
identifier itself does not trigger the clear — see the counterexample — the
cache is cleared at the start of the next iteration.) -/
theorem mempool_cache_clear_on_next_iteration (seen : Finset ℕ) (tx : ℕ)
    (txs : List ℕ) (rest : List (Option (List ℕ))) (h : 200 < seen.card) :
    query_node_for_new_mempool_txs seen [some [tx]] = some ({tx}, [tx]) ∧
    ({tx} : Finset ℕ).card = 1 ∧
    query_node_for_new_mempool_txs seen (some txs :: rest) =
      query_node_for_new_mempool_txs (∅ : Finset ℕ) (some txs :: rest) := by
  refine ⟨?_, Finset.card_singleton tx, ?_⟩
  · simp [query_node_for_new_mempool_txs, processNewTxs, h]
  · conv_lhs => unfold query_node_for_new_mempool_txs
    conv_rhs => unfold query_node_for_new_mempool_txs
    simp [h]

theorem mempool_cache_clear_on_next_iteration_witness :
    200 < (Finset.range 201).card ∧
    query_node_for_new_mempool_txs (Finset.range 201) [some [7]] =
      some ({7}, [7]) :=
  ⟨by simp, (mempool_cache_clear_on_next_iteration (Finset.range 201) 7 [7] []
    (by simp)).1⟩

/-- The inner dedup loop only ever adds to the cache. -/
lemma processNewTxs_subset (txs : List ℕ) (seen : Finset ℕ) :
    seen ⊆ (processNewTxs seen txs).1 := by
  induction txs generalizing seen with
  | nil => exact fun x hx => hx
  | cons t rest ih =>
    by_cases h : t ∈ seen
    · simpa [processNewTxs, h] using ih seen
    · simp only [processNewTxs, if_neg h]
      exact fun x hx => ih (insert t seen) (Finset.mem_insert_of_mem hx)

/-- Every identifier emitted by the inner dedup loop was absent from the cache
it started from and is present in the cache it ends with. -/
lemma processNewTxs_mem (txs : List ℕ) (seen : Finset ℕ) (tx : ℕ)
    (h : tx ∈ (processNewTxs seen txs).2) :
    tx ∉ seen ∧ tx ∈ (processNewTxs seen txs).1 := by
  induction txs generalizing seen with
  | nil => simp [processNewTxs] at h
  | cons t rest ih =>
    by_cases ht : t ∈ seen
    · simp only [processNewTxs, if_pos ht] at h ⊢
      exact ih seen h
    · simp only [processNewTxs, if_neg ht, List.mem_cons] at h ⊢
      rcases h with h | h
      · subst h
        exact ⟨ht, processNewTxs_subset rest (insert tx seen)
          (Finset.mem_insert_self tx seen)⟩
      · obtain ⟨h1, h2⟩ := ih (insert t seen) h
        exact ⟨fun hs => h1 (Finset.mem_insert_of_mem hs), h2⟩

/-- A `some` return of the polling loop is exactly the output of one inner
dedup pass with a non-empty batch. -/
lemma query_loop_batch (resps : List (Option (List ℕ))) (seen seen' : Finset ℕ)
    (new : List ℕ)
    (h : query_node_for_new_mempool_txs seen resps = some (seen', new)) :
    new ≠ [] ∧ ∃ sB txs, processNewTxs sB txs = (seen', new) := by
  induction resps generalizing seen with
  | nil => simp [query_node_for_new_mempool_txs] at h
  | cons resp rest ih =>
    unfold query_node_for_new_mempool_txs at h
    dsimp only at h
    cases resp with
    | none => exact ih _ h
    | some txs =>
      dsimp only at h
      by_cases he : txs.isEmpty
      · rw [if_pos he] at h
        exact ih _ h
      · rw [if_neg he] at h
        by_cases hb :
            (processNewTxs (if 200 < seen.card then ∅ else seen) txs).2.isEmpty
        · rw [if_pos hb] at h
          exact ih _ h
        · rw [if_neg hb] at h
          have hp : processNewTxs (if 200 < seen.card then ∅ else seen) txs =
              (seen', new) := Option.some.inj h
          refine ⟨?_, _, txs, hp⟩
          intro hnil
          rw [hp] at hb
          exact hb (by simp [hnil])

/-- Claim C7: whenever the polling loop returns, the batch is non-empty and is
the result of one dedup pass: every returned identifier was absent from the
cache at the start of that pass and is in the final cache, identifiers
already in the cache are never re-emitted, and inserting the same identifier
twice in one batch is a no-op (cache and emitted batch are unchanged by the
duplicate). -/
theorem query_node_for_new_mempool_txs_spec (seen : Finset ℕ)
    (resps : List (Option (List ℕ))) (seen' : Finset ℕ) (new : List ℕ)
    (h : query_node_for_new_mempool_txs seen resps = some (seen', new)) :
    new ≠ [] ∧
    (∃ sB txs, processNewTxs sB txs = (seen', new) ∧
      (∀ tx ∈ new, tx ∉ sB ∧ tx ∈ seen') ∧
      (∀ tx ∈ sB, tx ∉ new)) ∧
    (∀ (s : Finset ℕ) (t : ℕ), processNewTxs s [t, t] = processNewTxs s [t]) := by
  obtain ⟨hne, sB, txs, heq⟩ := query_loop_batch resps seen seen' new h
  have hmem : ∀ tx ∈ new, tx ∉ sB ∧ tx ∈ seen' := by
    intro tx htx
    have h2 : tx ∈ (processNewTxs sB txs).2 := by rw [heq]; exact htx
    obtain ⟨h1, hin⟩ := processNewTxs_mem txs sB tx h2
    rw [heq] at hin
    exact ⟨h1, hin⟩
  refine ⟨hne, ⟨sB, txs, heq, hmem, ?_⟩, ?_⟩
  · intro tx hsB hnew
    exact (hmem tx hnew).1 hsB
  · intro s t
    by_cases h : t ∈ s <;> simp [processNewTxs, h]

theorem query_node_for_new_mempool_txs_spec_witness :
    query_node_for_new_mempool_txs ∅ [some [1, 2, 1]] =
      some (insert 2 (insert 1 ∅), [1, 2]) ∧
    ([1, 2] : List ℕ) ≠ [] :=
  ⟨rfl,
    (query_node_for_new_mempool_txs_spec ∅ [some [1, 2, 1]]
      (insert 2 (insert 1 ∅)) [1, 2] rfl).1⟩
